import Mathlib

/-!
Shallow embedding of `src/source/main/zettlr-file.js` (the `ZettlrFile`
model class).  JS strings are modelled as Lean `String`s at the character
level; the filesystem is an explicit `Disk` state; interactions with the
external collaborators (the parent `ZettlrDir`, the watchdog, the shell
trash and the `fs` module) are modelled as an explicit effect trace.
External helper functions (`sanitize` from the sanitize-filename package,
`hash` and `ignoreFile` from zettlr-helpers) are passed as parameters.
-/

namespace Zettlr

/-- Substring containment on character lists: `hasSub pat l` is true iff
`pat` occurs contiguously inside `l`.  Models the JS test
`l.indexOf(pat) > -1`. -/
def hasSub (pat : List Char) : List Char → Bool
  | [] => pat.isEmpty
  | c :: rest => pat.isPrefixOf (c :: rest) || hasSub pat rest

/-- JS `s.indexOf(pat) > -1` on strings. -/
def strContains (s pat : String) : Bool :=
  hasSub pat.data s.data

/-- JS `String.prototype.substr(start, len)` (external builtin). -/
def jsSubstr (s : String) (start len : Nat) : String :=
  ⟨(s.data.drop start).take len⟩

/-- JS `String.prototype.toLowerCase()` (external builtin), modelled on the
basic-latin range via `Char.toLower`. -/
def jsToLower (s : String) : String :=
  ⟨s.data.map Char.toLower⟩

/-- The snippet computation shared by `setContent`, `read` and `save`:
`(cnt.length > 50) ? cnt.substr(0, 50) + '…' : cnt`. -/
def mkSnippet (cnt : String) : String :=
  if cnt.length > 50 then jsSubstr cnt 0 50 ++ "…" else cnt

/-- Node `path.dirname` (external library): the part of the path before the
final separator. -/
def pathDirname (p : String) : String :=
  String.mk (((p.data.reverse.dropWhile (fun c => c ≠ '/')).drop 1).reverse)

/-- Node `path.join` (external library), restricted to the two-argument
form used by `rename`. -/
def pathJoin (a b : String) : String :=
  a ++ "/" ++ b

/-- The filesystem, as the model observes it through `fs`: UTF-8 text
content and an mtime (epoch millis) per path. -/
structure Disk where
  contents : String → String
  mtime : String → Nat

/-- Writing a file (`fs.writeFileSync`): replaces the content at `p` and
stamps it with the current time `now`. -/
def writeFile (d : Disk) (p c : String) (now : Nat) : Disk where
  contents := fun q => if q = p then c else d.contents q
  mtime := fun q => if q = p then now else d.mtime q

/-- The mutable fields of a `ZettlrFile` instance.  The `parent` reference
and the constant `type = 'file'` field are external to the state; calls
into the parent and the shell are recorded as `Effect`s instead. -/
structure FileModel where
  dir : String
  name : String
  path : String
  hash : Nat
  ext : String
  modtime : Nat
  snippet : String
  content : String
  modified : Bool
deriving DecidableEq, Repr

/-- One observable call into a collaborator (parent directory model,
watchdog, shell, or `fs`). -/
inductive Effect where
  | notifyChange (msg : String)
  | trash (p : String)
  | parentRemove
  | parentSort
  | ignoreNext (evt p : String)
  | fsRename (oldPath newPath : String)
deriving DecidableEq, Repr

/-- Models `read()`: re-stats and re-reads the file at `this.path`, refreshes
`modtime` and `snippet`, clears `modified`, and returns the content.  It
does not touch `this.content`. -/
def read (m : FileModel) (d : Disk) : FileModel × String :=
  let cnt := d.contents m.path
  ({ m with modtime := d.mtime m.path, snippet := mkSnippet cnt, modified := false }, cnt)

/-- Models `setContent(cnt)`: stores the buffer, refreshes the snippet, sets the
dirty flag.  Does not touch disk. -/
def setContent (m : FileModel) (cnt : String) : FileModel :=
  { m with content := cnt, snippet := mkSnippet cnt, modified := true }

/-- Models `update()`: re-read after a remote change (returns `this`). -/
def update (m : FileModel) (d : Disk) : FileModel :=
  (read m d).1

/-- Models `save()`: writes the buffer to disk, clears buffer and dirty flag, then
calls `read()` to refresh modtime and snippet from the written state. -/
def save (m : FileModel) (d : Disk) (now : Nat) : FileModel × Disk :=
  let d' := writeFile d m.path m.content now
  let m' := { m with content := "", modified := false }
  ((read m' d').1, d')

/-- Models `remove()`: moves the file to the trash, then asks the parent to drop
this child. -/
def remove (m : FileModel) : List Effect :=
  [Effect.trash m.path, Effect.parentRemove]

/-- Models `isScope(p)`: `this` when `p` equals this model's path, a falsy value
(here `none`) otherwise. -/
def isScope (m : FileModel) (p : String) : Option FileModel :=
  if p = m.path then some m else none

/-- Models `handleEvent(p, e)`: processes a watchdog event only when
`isScope(p) === this`; on `'change'` re-reads and notifies the parent, on
`'unlink'` notifies the parent and then removes itself. -/
def handleEvent (m : FileModel) (d : Disk) (p e : String) : FileModel × List Effect :=
  if isScope m p = some m then
    if e = "change" then
      (update m d, [Effect.notifyChange ("File " ++ m.name ++ " has changed remotely.")])
    else if e = "unlink" then
      (m, Effect.notifyChange ("File " ++ m.name ++ " has been removed.") :: remove m)
    else (m, [])
  else (m, [])

/-- A `findFile` query object: each field models a property that is
present and non-null (`hasOwnProperty` plus `!= null`). -/
structure FileQuery where
  path : Option String
  hash : Option Nat

/-- Models `findFile(obj)`: compares by `path` when present (taking precedence),
else by `hash`; throws when neither is present. -/
def findFile (m : FileModel) (q : FileQuery) : Except String (Option FileModel) :=
  match q.path with
  | some p => Except.ok (if m.path = p then some m else none)
  | none =>
    match q.hash with
    | some h => Except.ok (if m.hash = h then some m else none)
    | none => Except.error "Cannot findFile!"

/-- Models `rename(name, watchdog)`: sanitizes the name, rejects an empty result,
appends `.md` when `ignoreFile` does not recognize the extension,
pre-emptively suppresses the watchdog events when a watchdog is given,
renames on disk, updates `path`/`name`/`hash` and asks the parent to
re-sort.  The external helpers `sanitize`, `ignoreFile` and `hash` are
parameters. -/
def rename (sanitizeF : String → String) (ignoreFileF : String → Bool)
    (hashF : String → Nat) (m : FileModel) (nm : String) (watchdog : Bool) :
    Except String (FileModel × List Effect) :=
  let name := sanitizeF nm
  if name = "" then
    Except.error "The new name did not contain any allowed characters."
  else
    let name := if ignoreFileF name then name ++ ".md" else name
    let newpath := pathJoin (pathDirname m.path) name
    let effs :=
      (if watchdog then [Effect.ignoreNext "unlink" m.path, Effect.ignoreNext "add" newpath]
       else [])
      ++ [Effect.fsRename m.path newpath, Effect.parentSort]
    Except.ok ({ m with name := name, path := newpath, hash := hashF newpath }, effs)

/-- One search term: the code branches on `operator === 'AND'` (a single
word) versus anything else (treated as OR over a list of candidates). -/
inductive SearchTerm where
  | and (word : String)
  | or (words : List String)

/-- The contribution of one term within one phase of `search`: 1 when the
phase string contains the AND word (respectively any OR candidate, with a
break after the first hit), else 0. -/
def termMatch (s : String) : SearchTerm → Nat
  | SearchTerm.and w => if strContains s w then 1 else 0
  | SearchTerm.or ws => if ws.any (fun wd => strContains s wd) then 1 else 0

/-- The `matches` total contributed by one phase of `search` over all
terms. -/
def phaseMatches (s : String) : List SearchTerm → Nat
  | [] => 0
  | t :: ts => termMatch s t + phaseMatches s ts

/-- Models `search(terms)`: counts title matches against `this.name`; returns
true immediately when every term matched the title; otherwise reads the
file, lower-cases the content, keeps accumulating into the same counter
and compares against `terms.length`.  Returns the result together with the
model as mutated by the embedded `read()`. -/
def search (m : FileModel) (d : Disk) (terms : List SearchTerm) : Bool × FileModel :=
  let hits := phaseMatches m.name terms
  if hits = terms.length then (true, m)
  else
    let r := read m d
    ((hits + phaseMatches (jsToLower r.2) terms) == terms.length, r.1)

/-- The always-continue variant of `search` described by the spec's
early-return sentence: no short-circuit after the title phase, the test
`matches == terms.length` happens only once at the end. -/
def searchAlwaysContinue (m : FileModel) (d : Disk) (terms : List SearchTerm) : Bool :=
  let hits := phaseMatches m.name terms
  (hits + phaseMatches (jsToLower (read m d).2) terms) == terms.length

/-- A concrete file model used for concrete evaluations. -/
def mA : FileModel :=
  { dir := "d", name := "a", path := "/d/a", hash := 0, ext := "", modtime := 0,
    snippet := "a", content := "", modified := false }

/-- A concrete disk whose every file holds the text `"a"`. -/
def dA : Disk :=
  { contents := fun _ => "a", mtime := fun _ => 0 }



/-! ### Helper lemmas -/

theorem toNat_ofNat_valid (n : Nat) (h : n < 55296) : (Char.ofNat n).toNat = n := by
  have hv : Nat.isValidChar n := Or.inl h
  simp [Char.ofNat, hv, Char.ofNatAux, Char.toNat, UInt32.toNat, UInt32.ofNat',
    BitVec.toNat_ofNatLt]

theorem toLower_not_upper (c : Char) : (Char.toLower c).isUpper = false := by
  simp only [Char.toLower, Char.isUpper]
  split
  · next h =>
    have h2 : (Char.ofNat (c.toNat + 32)).toNat = c.toNat + 32 := by
      apply toNat_ofNat_valid; omega
    have h3 : ¬ ((Char.ofNat (c.toNat + 32)).val ≤ 90) := by
      show ¬ ((Char.ofNat (c.toNat + 32)).toNat ≤ 90)
      omega
    simp [h3]
  · next h =>
    have h4 : ¬ (65 ≤ c.val ∧ c.val ≤ 90) := fun hc => h ⟨hc.1, hc.2⟩
    rcases Classical.em (65 ≤ c.val) with h5 | h5
    · have h6 : ¬ (c.val ≤ 90) := fun h7 => h4 ⟨h5, h7⟩
      simp [h6]
    · simp [h5]

theorem isPrefixOf_subset (pat : List Char) :
    ∀ l : List Char, pat.isPrefixOf l = true → ∀ c ∈ pat, c ∈ l := by
  induction pat with
  | nil => intro l h c hc; simp at hc
  | cons a as ih =>
    intro l h c hc
    cases l with
    | nil => simp [List.isPrefixOf] at h
    | cons b bs =>
      simp only [List.isPrefixOf, Bool.and_eq_true, beq_iff_eq] at h
      rcases List.mem_cons.mp hc with hca | hcas
      · exact hca ▸ h.1 ▸ List.mem_cons_self b bs
      · exact List.mem_cons_of_mem b (ih bs h.2 c hcas)

theorem hasSub_subset (l pat : List Char) (h : hasSub pat l = true) : ∀ c ∈ pat, c ∈ l := by
  induction l with
  | nil =>
    intro c hc
    unfold hasSub at h
    cases pat with
    | nil => simp at hc
    | cons a as => simp [List.isEmpty] at h
  | cons a rest ih =>
    intro c hc
    unfold hasSub at h
    simp only [Bool.or_eq_true] at h
    rcases h with h1 | h2
    · exact isPrefixOf_subset pat (a :: rest) h1 c hc
    · exact List.mem_cons_of_mem a (ih h2 c hc)

theorem jsToLower_no_upper (s : String) : ∀ c ∈ (jsToLower s).data, c.isUpper = false := by
  intro c hc
  simp only [jsToLower] at hc
  rcases List.mem_map.mp hc with ⟨c0, _, rfl⟩
  exact toLower_not_upper c0

/-! ### Claims -/

/-- C1 counterexample: with the model `mA` and disk `dA`, `setContent("a")`
followed by `read()` leaves the buffer equal to `"a"` (and the dirty flag
cleared), refuting both the claimed invariant and the claim that a disk
re-read empties the buffer. -/
theorem C1_counterexample :
    (read (setContent mA "a") dA).1.content = "a"
    ∧ (read (setContent mA "a") dA).1.modified = false
    ∧ (read (setContent mA "a") dA).1.content ≠ "" := by
  refine ⟨rfl, rfl, ?_⟩
  decide

/-- C1 (amended): after `save()` the buffer is empty and `isModified` false;
`read()` clears `isModified` but leaves the buffer unchanged, so
`setContent(X)` followed by `read()` leaves the buffer equal to `X`. -/
theorem C1_buffer_after_save_and_read (m : FileModel) (d : Disk) (X : String) (now : Nat) :
    (save m d now).1.content = ""
    ∧ (save m d now).1.modified = false
    ∧ (read (setContent m X) d).1.content = X
    ∧ (read (setContent m X) d).1.modified = false :=
  ⟨rfl, rfl, rfl, rfl⟩

/-- C2 counterexample: on the one-term search `AND "a"` against the model
`mA` (name `"a"`) and disk `dA` (content `"a"`), the early-return version
returns true while the always-continue version returns false: the early
return does change the result. -/
theorem C2_counterexample :
    (search mA dA [SearchTerm.and "a"]).1 = true
    ∧ searchAlwaysContinue mA dA [SearchTerm.and "a"] = false := by
  constructor <;> decide

/-- C2 (amended): the early return is not semantics-preserving; `search`
agrees with the always-continue version exactly when the title phase does
not already match every term, and returns true regardless of the content
phase otherwise. -/
theorem C2_early_return_not_equivalent (m : FileModel) (d : Disk) (terms : List SearchTerm) :
    (search m d terms).1 =
      (if phaseMatches m.name terms = terms.length then true
       else searchAlwaysContinue m d terms) := by
  unfold search searchAlwaysContinue
  dsimp only
  split <;> rfl

/-- C3: `search` shares one `matches` accumulator across both phases
without resetting it and returns true iff the final count equals
`terms.length`; concretely, with name and content both `"a"`, the two-term
query `AND "a", AND "z"` returns true although `"z"` matches neither the
name nor the content. -/
theorem C3_shared_accumulator :
    (∀ (m : FileModel) (d : Disk) (terms : List SearchTerm),
      (search m d terms).1 =
        ((phaseMatches m.name terms +
          (if phaseMatches m.name terms = terms.length then 0
           else phaseMatches (jsToLower (d.contents m.path)) terms)) == terms.length))
    ∧ ((search mA dA [SearchTerm.and "a", SearchTerm.and "z"]).1 = true
       ∧ strContains mA.name "a" = true
       ∧ strContains (jsToLower (dA.contents mA.path)) "a" = true
       ∧ strContains mA.name "z" = false
       ∧ strContains (jsToLower (dA.contents mA.path)) "z" = false) := by
  constructor
  · intro m d terms
    unfold search
    dsimp only
    split
    · next h => simp [h]
    · next h => simp [h, read]
  · refine ⟨?_, ?_, ?_, ?_, ?_⟩ <;> decide

/-- C4: when sanitization yields the empty string, `rename` fails with the
invalid-name error before producing any state change or filesystem
effect. -/
theorem C4_rename_invalid_name (sf : String → String) (igf : String → Bool)
    (hf : String → Nat) (m : FileModel) (nm : String) (w : Bool) (h : sf nm = "") :
    rename sf igf hf m nm w =
      Except.error "The new name did not contain any allowed characters." := by
  simp [rename, h]

/-- C4 witness: a sanitizer mapping everything to the empty string makes
`rename "../../etc/passwd"` fail with the invalid-name error. -/
theorem C4_witness :
    ((fun _ : String => "") "../../etc/passwd" = "")
    ∧ rename (fun _ : String => "") (fun _ => false) (fun _ => 0) mA "../../etc/passwd" false =
        Except.error "The new name did not contain any allowed characters." :=
  ⟨rfl, C4_rename_invalid_name _ _ _ _ _ _ rfl⟩

/-- C5: round-trip — `setContent(X)` then `save()` then `read()` returns
exactly `X`, and immediately after `save()` the dirty flag is false and
the buffer is empty. -/
theorem C5_roundtrip (m : FileModel) (d : Disk) (X : String) (now : Nat) :
    (read (save (setContent m X) d now).1 (save (setContent m X) d now).2).2 = X
    ∧ (save (setContent m X) d now).1.content = ""
    ∧ (save (setContent m X) d now).1.modified = false := by
  refine ⟨?_, rfl, rfl⟩
  simp [save, read, setContent, writeFile]

/-- C6: `findFile` compares only the `path` field when it is present
(taking precedence over `hash`), compares `hash` when only it is present,
fails with the invalid-query error when neither is present, and never
throws for a mere non-match. -/
theorem C6_findFile (m : FileModel) (p : String) (hq : Option Nat) (h : Nat) :
    findFile m ⟨some p, hq⟩ = Except.ok (if m.path = p then some m else none)
    ∧ findFile m ⟨none, some h⟩ = Except.ok (if m.hash = h then some m else none)
    ∧ findFile m ⟨none, none⟩ = Except.error "Cannot findFile!" :=
  ⟨rfl, rfl, rfl⟩

/-- C7: when the sanitized name is non-empty and lacks a recognized
document extension (the external predicate returns true), `rename` appends
`.md` to it and renames the file to the resulting path. -/
theorem C7_rename_appends_md (sf : String → String) (igf : String → Bool)
    (hf : String → Nat) (m : FileModel) (nm : String) (w : Bool)
    (h1 : sf nm ≠ "") (h2 : igf (sf nm) = true) :
    rename sf igf hf m nm w = Except.ok
      ({ m with name := sf nm ++ ".md",
                path := pathJoin (pathDirname m.path) (sf nm ++ ".md"),
                hash := hf (pathJoin (pathDirname m.path) (sf nm ++ ".md")) },
       (if w then [Effect.ignoreNext "unlink" m.path,
                   Effect.ignoreNext "add" (pathJoin (pathDirname m.path) (sf nm ++ ".md"))]
        else [])
       ++ [Effect.fsRename m.path (pathJoin (pathDirname m.path) (sf nm ++ ".md")),
           Effect.parentSort]) := by
  simp [rename, h1, h2]

/-- C7 witness: renaming `mA` to `"notes"` (no extension) yields the final
name `"notes.md"` and the rename effect targets `/d/notes.md`. -/
theorem C7_witness :
    ((fun s : String => s) "notes" ≠ "")
    ∧ rename (fun s : String => s) (fun _ => true) (fun _ => 0) mA "notes" false =
        Except.ok ({ mA with name := "notes.md", path := "/d/notes.md", hash := 0 },
          [Effect.fsRename "/d/a" "/d/notes.md", Effect.parentSort]) := by
  refine ⟨by decide, ?_⟩
  rw [C7_rename_appends_md (fun s : String => s) (fun _ => true) (fun _ => 0) mA "notes" false
    (by decide) rfl]
  rfl

/-- C8: after `setContent(X)` the dirty flag is true and the snippet is
the first 50 characters of `X` followed by the ellipsis marker when `X` is
longer than 50 characters, else `X` itself. -/
theorem C8_setContent_snippet (m : FileModel) (X : String) :
    (setContent m X).modified = true
    ∧ (setContent m X).snippet =
        (if 50 < X.length then String.mk (X.data.take 50) ++ "…" else X) := by
  refine ⟨rfl, ?_⟩
  simp [setContent, mkSnippet, jsSubstr]

/-- C9: `handleEvent(p, "unlink")` is a complete no-op (model unchanged,
no effects) when `p` differs from the model's path, and notifies the
parent and then removes (trash, parent detach) when `p` equals it. -/
theorem C9_handleEvent_unlink (m : FileModel) (d : Disk) (p : String) :
    (p ≠ m.path → handleEvent m d p "unlink" = (m, []))
    ∧ handleEvent m d m.path "unlink" =
        (m, Effect.notifyChange ("File " ++ m.name ++ " has been removed.") :: remove m) := by
  constructor
  · intro hp
    simp [handleEvent, isScope, hp]
  · simp [handleEvent, isScope]

/-- C9 witness: at the concrete model `mA`, the foreign path `/x` is a
no-op for an unlink event. -/
theorem C9_witness :
    ("/x" ≠ mA.path) ∧ handleEvent mA dA "/x" "unlink" = (mA, []) :=
  ⟨by decide, (C9_handleEvent_unlink mA dA "/x").1 (by decide)⟩

/-- C10: in the content phase of `search` the content is lower-cased but
the terms are not, so an AND term whose word contains an upper-case letter
can never count a match against content, and an OR term all of whose
candidates contain an upper-case letter counts none either. -/
theorem C10_uppercase_terms_never_match_content (cnt : String) :
    (∀ w : String, (∃ c ∈ w.data, c.isUpper = true) →
      strContains (jsToLower cnt) w = false
      ∧ termMatch (jsToLower cnt) (SearchTerm.and w) = 0)
    ∧ (∀ ws : List String, (∀ wd ∈ ws, ∃ c ∈ wd.data, c.isUpper = true) →
      termMatch (jsToLower cnt) (SearchTerm.or ws) = 0) := by
  have key : ∀ w : String, (∃ c ∈ w.data, c.isUpper = true) →
      strContains (jsToLower cnt) w = false := by
    intro w ⟨c, hc, hup⟩
    by_contra hne
    have htrue : strContains (jsToLower cnt) w = true := by
      cases hx : strContains (jsToLower cnt) w
      · exact absurd hx hne
      · rfl
    have hmem : c ∈ (jsToLower cnt).data :=
      hasSub_subset (jsToLower cnt).data w.data htrue c hc
    have := jsToLower_no_upper cnt c hmem
    rw [hup] at this
    simp at this
  constructor
  · intro w hw
    refine ⟨key w hw, ?_⟩
    simp [termMatch, key w hw]
  · intro ws hws
    have hall : ∀ wd ∈ ws, strContains (jsToLower cnt) wd = false := fun wd hwd =>
      key wd (hws wd hwd)
    simp only [termMatch]
    rw [if_neg]
    intro hany
    rcases List.any_eq_true.mp hany with ⟨wd, hwd, hsc⟩
    rw [hall wd hwd] at hsc
    exact Bool.false_ne_true hsc

/-- C10 witness: the upper-case word `"B"` is never found in the
lower-cased content `"aBc"`. -/
theorem C10_witness :
    (∃ c ∈ "B".data, c.isUpper = true)
    ∧ termMatch (jsToLower "aBc") (SearchTerm.and "B") = 0 :=
  ⟨by decide, ((C10_uppercase_terms_never_match_content "aBc").1 "B" (by decide)).2⟩

end Zettlr
